import Mathlib

/-!
Verification of the streaming voice-activity smoothing pipeline of
`src/api/app/handy_preprocessing.py` (classes `SileroVAD`, `SmoothedVAD`,
`HandyPreprocessor`).

Shallow embedding conventions:
* audio samples and classifier probabilities are rationals (the Python code
  uses floats; all comparisons and arithmetic here are the exact ordered-field
  operations the code performs);
* a `Frame` is the list of samples handed to `SmoothedVAD.process_frame`;
* the neural classifier (`SileroVAD.detect`, an ONNX call) is opaque: the
  embedding takes its per-frame probability as an input, and thresholding
  (`SileroVAD.is_speech`) is embedded exactly;
* Python's `deque(maxlen=prefill_frames+1)` is a list that drops from the
  front on overflow;
* Python non-negative integer counters are `ℕ`; the code only ever decrements
  `hangover_counter` under a `> 0` guard, so no underflow is lost.
-/

namespace Handy

/-- A frame of audio samples (the Python code passes 480-sample numpy arrays,
padding the final short frame with zeros). -/
abbrev Frame := List ℚ

/-- `SileroVAD.is_speech`: `self.detect(frame) > self.threshold`, with the
detector output (probability) taken as the opaque input. Strict `>`. -/
def is_speech (threshold prob : ℚ) : Bool :=
  decide (prob > threshold)

/-- Configuration of `SmoothedVAD.__init__` plus the detector threshold. -/
structure SmoothingConfig where
  threshold : ℚ
  prefill_frames : ℕ
  hangover_frames : ℕ
  onset_frames : ℕ
  deriving Repr

/-- Mutable state of a `SmoothedVAD` instance. -/
structure VadState where
  frame_buffer : List Frame
  hangover_counter : ℕ
  onset_counter : ℕ
  in_speech : Bool
  deriving Repr

/-- `SmoothedVAD.reset` / the state set up by `__init__`. -/
def resetState : VadState :=
  { frame_buffer := [], hangover_counter := 0, onset_counter := 0, in_speech := false }

/-- `self.frame_buffer.append(frame)` on a `deque(maxlen = prefill + 1)`:
the new element goes to the back and the front is dropped when the capacity
`prefill + 1` is exceeded. -/
def pushFrame (prefill : ℕ) (buf : List Frame) (f : Frame) : List Frame :=
  if (buf ++ [f]).length > prefill + 1 then
    (buf ++ [f]).drop ((buf ++ [f]).length - (prefill + 1))
  else
    buf ++ [f]

/-- Result of one `SmoothedVAD.process_frame` call: the successor state and
the returned pair `(is_speech, audio_data)`. -/
structure FrameResult where
  state : VadState
  emit : Bool
  payload : Option (List ℚ)
  deriving Repr

/-- `SmoothedVAD.process_frame`: append the frame to the ring buffer, test the
probability against the threshold, then take the four-way state transition of
the Python `if//elif//else` chain. -/
def process_frame (cfg : SmoothingConfig) (s : VadState) (f : Frame) (prob : ℚ) :
    FrameResult :=
  let buf := pushFrame cfg.prefill_frames s.frame_buffer f
  let is_voice := is_speech cfg.threshold prob
  match s.in_speech, is_voice with
  | false, true =>
      -- 音声開始の可能性
      let oc := s.onset_counter + 1
      if oc ≥ cfg.onset_frames then
        -- 音声開始確定 - prefillバッファを含めて返す
        { state := { frame_buffer := buf, hangover_counter := cfg.hangover_frames,
                     onset_counter := 0, in_speech := true },
          emit := true, payload := some buf.flatten }
      else
        { state := { frame_buffer := buf, hangover_counter := s.hangover_counter,
                     onset_counter := oc, in_speech := false },
          emit := false, payload := none }
  | true, true =>
      -- 音声継続
      { state := { frame_buffer := buf, hangover_counter := cfg.hangover_frames,
                   onset_counter := s.onset_counter, in_speech := true },
        emit := true, payload := some f }
  | true, false =>
      if s.hangover_counter > 0 then
        { state := { frame_buffer := buf, hangover_counter := s.hangover_counter - 1,
                     onset_counter := s.onset_counter, in_speech := true },
          emit := true, payload := some f }
      else
        -- 音声終了確定
        { state := { frame_buffer := buf, hangover_counter := s.hangover_counter,
                     onset_counter := s.onset_counter, in_speech := false },
          emit := false, payload := none }
  | false, false =>
      -- 無音継続
      { state := { frame_buffer := buf, hangover_counter := s.hangover_counter,
                   onset_counter := 0, in_speech := false },
        emit := false, payload := none }

/-- `self.target_sr` of `HandyPreprocessor` (16 kHz). -/
def target_sr : ℚ := 16000

/-- One reported VAD segment (the Python dict `{'start': ..., 'end': ...}`,
times in seconds on the output timeline). `stop` stands for the reserved
word `end`. -/
structure Segment where
  start : ℚ
  stop : ℚ
  deriving Repr, DecidableEq

/-- The loop-carried accumulator of `HandyPreprocessor.process`:
`processed_audio` is the Python list of appended chunks (not yet
concatenated), `vad_segments` the reported segments, `segment_start` the
currently open segment's start time. -/
structure AccState where
  processed_audio : List (List ℚ)
  vad_segments : List Segment
  segment_start : Option ℚ
  deriving Repr

/-- The empty accumulator at loop entry. -/
def accInit : AccState :=
  { processed_audio := [], vad_segments := [], segment_start := none }

/-- The body of the per-frame accumulator in `HandyPreprocessor.process`
(lines 196-206).  Note line 198: on opening a segment the code takes
`len(processed_audio) / self.target_sr`, i.e. the number of *chunks* appended
so far (Python list length), not the number of samples; the close at line 204
uses `len(np.concatenate(processed_audio))`, the number of samples.
`np.concatenate` of the chunk list is `List.flatten`; the Python truthiness
guard `if processed_audio else 0` matches the `= []` test. -/
def accStep (acc : AccState) (em : Bool) (payload : Option (List ℚ)) : AccState :=
  match em, payload with
  | true, some data =>
      { processed_audio := acc.processed_audio ++ [data]
        vad_segments := acc.vad_segments
        segment_start :=
          match acc.segment_start with
          | none =>
              some (if acc.processed_audio = [] then 0
                    else (acc.processed_audio.length : ℚ) / target_sr)
          | some v => some v }
  | _, _ =>
      match acc.segment_start with
      | some v =>
          { processed_audio := acc.processed_audio
            vad_segments := acc.vad_segments ++
              [{ start := v,
                 stop := (acc.processed_audio.flatten.length : ℚ) / target_sr }]
            segment_start := none }
      | none => acc

/-- Combined loop state: the `SmoothedVAD` instance plus the accumulator. -/
structure RunState where
  vad : VadState
  acc : AccState
  deriving Repr

/-- Loop entry state: a fresh `SmoothedVAD` and the empty accumulator. -/
def runInit : RunState := { vad := resetState, acc := accInit }

/-- One iteration of the frame loop of `HandyPreprocessor.process`: call
`process_frame` on the frame and its classifier probability, feed the result
to the accumulator. -/
def runStep (cfg : SmoothingConfig) (rs : RunState) (inp : Frame × ℚ) : RunState :=
  let r := process_frame cfg rs.vad inp.1 inp.2
  { vad := r.state, acc := accStep rs.acc r.emit r.payload }

/-- The frame loop folded over the whole input stream. -/
def runLoop (cfg : SmoothingConfig) (rs : RunState) (inputs : List (Frame × ℚ)) :
    RunState :=
  inputs.foldl (runStep cfg) rs

/-- Closing of the final open segment after the loop
(`HandyPreprocessor.process` lines 209-213): only when a segment is open and
`processed_audio` is non-empty. -/
def closeFinal (acc : AccState) : AccState :=
  match acc.segment_start with
  | some v =>
      if acc.processed_audio ≠ [] then
        { acc with vad_segments := acc.vad_segments ++
            [{ start := v,
               stop := (acc.processed_audio.flatten.length : ℚ) / target_sr }] }
      else acc
  | none => acc

/-- The whole VAD stage of `HandyPreprocessor.process` on a stream of
(frame, classifier probability) pairs: fold the loop from a fresh state, then
close the final open segment. -/
def runVAD (cfg : SmoothingConfig) (inputs : List (Frame × ℚ)) : AccState :=
  closeFinal (runLoop cfg runInit inputs).acc

/-- The list of `is_speech` booleans returned by successive `process_frame`
calls on a stream, starting from state `s` (an observation trace of the
machine; the Python code consumes each value immediately). -/
def emitTrace (cfg : SmoothingConfig) (s : VadState) (inputs : List (Frame × ℚ)) :
    List Bool :=
  (inputs.foldl
    (fun (p : VadState × List Bool) inp =>
      let r := process_frame cfg p.1 inp.1 inp.2
      (r.state, p.2 ++ [r.emit]))
    (s, [])).2

/-- Framing step of `HandyPreprocessor.process` (lines 187-192): consecutive
480-sample frames, the final short frame zero-padded to 480 samples. -/
def frameSplit (audio : List ℚ) : List Frame :=
  if audio = [] then []
  else
    (audio.take 480 ++ List.replicate (480 - (audio.take 480).length) 0)
      :: frameSplit (audio.drop 480)
termination_by audio.length
decreasing_by
  simp only [List.length_drop]
  rename_i h
  have : 0 < audio.length := List.length_pos.mpr h
  omega

/-- Silent-clip fallback of `HandyPreprocessor.process` (lines 215-222):
if any chunks were emitted, the output is their concatenation, otherwise the
original (un-gated) audio is passed through. -/
def gatedAudio (audio : List ℚ) (acc : AccState) : List ℚ :=
  if acc.processed_audio = [] then audio else acc.processed_audio.flatten

/-- Padding step of `HandyPreprocessor.process` (lines 224-228): an output
shorter than one second (16000 samples) is zero-padded at the end to
`int(16000 * 1.25) = 20000` samples. -/
def padAudio (a : List ℚ) : List ℚ :=
  if a.length < 16000 then a ++ List.replicate (20000 - a.length) 0 else a

/-- The metadata fields of the dict returned by `HandyPreprocessor.process`
that the core computes (lines 240-249), plus the saved audio. -/
structure ProcessResult where
  audio : List ℚ
  processed_duration : ℚ
  vad_segments : List Segment
  num_segments : ℕ
  deriving Repr

/-- `HandyPreprocessor.process` with `vad_enabled=True` after loading and
resampling: frame the audio, run each frame through the classifier `detect`
and the smoothing/accumulation loop, apply the silent-clip fallback and the
padding, and report duration and segments. -/
def process (cfg : SmoothingConfig) (detect : Frame → ℚ) (audio : List ℚ) :
    ProcessResult :=
  let acc := runVAD cfg ((frameSplit audio).map (fun f => (f, detect f)))
  let outAudio := padAudio (gatedAudio audio acc)
  { audio := outAudio
    processed_duration := (outAudio.length : ℚ) / target_sr
    vad_segments := acc.vad_segments
    num_segments := acc.vad_segments.length }

/-! ### Basic lemmas about the ring buffer and the loop -/

theorem pushFrame_length_le (p : ℕ) (buf : List Frame) (f : Frame) :
    (pushFrame p buf f).length ≤ p + 1 := by
  unfold pushFrame
  split
  · simp only [List.length_drop]
    omega
  · rename_i h
    simp only [not_lt] at h
    exact h

theorem pushFrame_getLast (p : ℕ) (buf : List Frame) (f : Frame) :
    (pushFrame p buf f).getLast? = some f := by
  unfold pushFrame
  split
  · rw [List.drop_append_of_le_length
      (by simp only [List.length_append, List.length_cons, List.length_nil]; omega)]
    exact List.getLast?_concat _
  · exact List.getLast?_concat _

theorem runLoop_nil (cfg : SmoothingConfig) (rs : RunState) :
    runLoop cfg rs [] = rs := rfl

theorem runLoop_cons (cfg : SmoothingConfig) (rs : RunState) (x : Frame × ℚ)
    (l : List (Frame × ℚ)) :
    runLoop cfg rs (x :: l) = runLoop cfg (runStep cfg rs x) l := rfl

theorem runLoop_append (cfg : SmoothingConfig) (rs : RunState)
    (l₁ l₂ : List (Frame × ℚ)) :
    runLoop cfg rs (l₁ ++ l₂) = runLoop cfg (runLoop cfg rs l₁) l₂ := by
  simp [runLoop, List.foldl_append]

/-! ### One-step characterizations of `runStep` -/

theorem runStep_idle_unvoiced (cfg : SmoothingConfig) (s : VadState) (acc : AccState)
    (x : Frame × ℚ) (hs : s.in_speech = false)
    (hx : is_speech cfg.threshold x.2 = false) (hacc : acc.segment_start = none) :
    runStep cfg ⟨s, acc⟩ x =
      ⟨{ frame_buffer := pushFrame cfg.prefill_frames s.frame_buffer x.1,
         hangover_counter := s.hangover_counter, onset_counter := 0,
         in_speech := false }, acc⟩ := by
  simp [runStep, process_frame, hs, hx, accStep, hacc]

theorem runStep_idle_voiced_noconfirm (cfg : SmoothingConfig) (s : VadState)
    (acc : AccState) (x : Frame × ℚ) (hs : s.in_speech = false)
    (hx : is_speech cfg.threshold x.2 = true) (hacc : acc.segment_start = none)
    (ho : s.onset_counter + 1 < cfg.onset_frames) :
    runStep cfg ⟨s, acc⟩ x =
      ⟨{ frame_buffer := pushFrame cfg.prefill_frames s.frame_buffer x.1,
         hangover_counter := s.hangover_counter, onset_counter := s.onset_counter + 1,
         in_speech := false }, acc⟩ := by
  simp [runStep, process_frame, hs, hx, accStep, hacc, Nat.not_le.mpr ho]

theorem runStep_confirm (cfg : SmoothingConfig) (s : VadState) (acc : AccState)
    (x : Frame × ℚ) (hs : s.in_speech = false)
    (hx : is_speech cfg.threshold x.2 = true)
    (ho : cfg.onset_frames ≤ s.onset_counter + 1) :
    runStep cfg ⟨s, acc⟩ x =
      ⟨{ frame_buffer := pushFrame cfg.prefill_frames s.frame_buffer x.1,
         hangover_counter := cfg.hangover_frames, onset_counter := 0,
         in_speech := true },
       accStep acc true
         (some (pushFrame cfg.prefill_frames s.frame_buffer x.1).flatten)⟩ := by
  simp [runStep, process_frame, hs, hx, ho]

theorem runStep_speech_voiced (cfg : SmoothingConfig) (s : VadState) (acc : AccState)
    (x : Frame × ℚ) (hs : s.in_speech = true)
    (hx : is_speech cfg.threshold x.2 = true) :
    runStep cfg ⟨s, acc⟩ x =
      ⟨{ frame_buffer := pushFrame cfg.prefill_frames s.frame_buffer x.1,
         hangover_counter := cfg.hangover_frames, onset_counter := s.onset_counter,
         in_speech := true },
       accStep acc true (some x.1)⟩ := by
  simp [runStep, process_frame, hs, hx]

theorem runStep_hangover_tick (cfg : SmoothingConfig) (s : VadState) (acc : AccState)
    (x : Frame × ℚ) (hs : s.in_speech = true)
    (hx : is_speech cfg.threshold x.2 = false) (hh : 0 < s.hangover_counter) :
    runStep cfg ⟨s, acc⟩ x =
      ⟨{ frame_buffer := pushFrame cfg.prefill_frames s.frame_buffer x.1,
         hangover_counter := s.hangover_counter - 1, onset_counter := s.onset_counter,
         in_speech := true },
       accStep acc true (some x.1)⟩ := by
  simp [runStep, process_frame, hs, hx, hh]

theorem runStep_hangover_exhausted (cfg : SmoothingConfig) (s : VadState)
    (acc : AccState) (x : Frame × ℚ) (hs : s.in_speech = true)
    (hx : is_speech cfg.threshold x.2 = false) (hh : s.hangover_counter = 0) :
    runStep cfg ⟨s, acc⟩ x =
      ⟨{ frame_buffer := pushFrame cfg.prefill_frames s.frame_buffer x.1,
         hangover_counter := s.hangover_counter, onset_counter := s.onset_counter,
         in_speech := false },
       accStep acc false none⟩ := by
  simp [runStep, process_frame, hs, hx, hh]

/-! ### Phase lemmas: behaviour of the loop on runs of voiced / unvoiced frames -/

theorem idle_unvoiced_run (cfg : SmoothingConfig) (l : List (Frame × ℚ))
    (hl : ∀ x ∈ l, is_speech cfg.threshold x.2 = false) :
    ∀ s acc, s.in_speech = false → acc.segment_start = none →
    (runLoop cfg ⟨s, acc⟩ l).vad.in_speech = false ∧
    (runLoop cfg ⟨s, acc⟩ l).vad.onset_counter = (if l = [] then s.onset_counter else 0) ∧
    (runLoop cfg ⟨s, acc⟩ l).acc = acc := by
  induction l with
  | nil =>
    intro s acc hs hacc
    simp [runLoop_nil, hs]
  | cons x l ih =>
    intro s acc hs hacc
    rw [runLoop_cons, runStep_idle_unvoiced cfg s acc x hs (hl x (by simp)) hacc]
    have h := ih (fun y hy => hl y (by simp [hy]))
      { frame_buffer := pushFrame cfg.prefill_frames s.frame_buffer x.1,
        hangover_counter := s.hangover_counter, onset_counter := 0, in_speech := false }
      acc rfl hacc
    refine ⟨h.1, ?_, h.2.2⟩
    rw [h.2.1]
    simp

theorem onset_climb_run (cfg : SmoothingConfig) (l : List (Frame × ℚ))
    (hl : ∀ x ∈ l, is_speech cfg.threshold x.2 = true) :
    ∀ s acc, s.in_speech = false → acc.segment_start = none →
    (s.onset_counter + l.length < cfg.onset_frames ∨ l = []) →
    (runLoop cfg ⟨s, acc⟩ l).vad.in_speech = false ∧
    (runLoop cfg ⟨s, acc⟩ l).vad.onset_counter = s.onset_counter + l.length ∧
    (runLoop cfg ⟨s, acc⟩ l).acc = acc := by
  induction l with
  | nil =>
    intro s acc hs hacc _
    simp [runLoop_nil, hs]
  | cons x l ih =>
    intro s acc hs hacc ho
    have ho' : s.onset_counter + (x :: l).length < cfg.onset_frames := by
      rcases ho with h | h
      · exact h
      · simp at h
    have hlt : s.onset_counter + 1 < cfg.onset_frames := by
      simp only [List.length_cons] at ho'
      omega
    rw [runLoop_cons, runStep_idle_voiced_noconfirm cfg s acc x hs (hl x (by simp)) hacc hlt]
    have h := ih (fun y hy => hl y (by simp [hy]))
      { frame_buffer := pushFrame cfg.prefill_frames s.frame_buffer x.1,
        hangover_counter := s.hangover_counter, onset_counter := s.onset_counter + 1,
        in_speech := false }
      acc rfl hacc
      (by
        left
        show s.onset_counter + 1 + l.length < cfg.onset_frames
        simp only [List.length_cons] at ho'
        omega)
    refine ⟨h.1, ?_, h.2.2⟩
    rw [h.2.1]
    simp only [List.length_cons]
    omega

theorem speech_voiced_run (cfg : SmoothingConfig) (l : List (Frame × ℚ))
    (hl : ∀ x ∈ l, is_speech cfg.threshold x.2 = true) :
    ∀ s acc v, s.in_speech = true → acc.segment_start = some v →
    (runLoop cfg ⟨s, acc⟩ l).vad.in_speech = true ∧
    (runLoop cfg ⟨s, acc⟩ l).vad.hangover_counter =
      (if l = [] then s.hangover_counter else cfg.hangover_frames) ∧
    (runLoop cfg ⟨s, acc⟩ l).acc.segment_start = some v ∧
    (runLoop cfg ⟨s, acc⟩ l).acc.vad_segments = acc.vad_segments ∧
    ∃ ext, (runLoop cfg ⟨s, acc⟩ l).acc.processed_audio = acc.processed_audio ++ ext := by
  induction l with
  | nil =>
    intro s acc v hs hacc
    exact ⟨hs, by simp [runLoop_nil], by simp [runLoop_nil, hacc],
      by simp [runLoop_nil], ⟨[], by simp [runLoop_nil]⟩⟩
  | cons x l ih =>
    intro s acc v hs hacc
    rw [runLoop_cons, runStep_speech_voiced cfg s acc x hs (hl x (by simp))]
    have hacc' : (accStep acc true (some x.1)).segment_start = some v := by
      simp [accStep, hacc]
    have h := ih (fun y hy => hl y (by simp [hy]))
      { frame_buffer := pushFrame cfg.prefill_frames s.frame_buffer x.1,
        hangover_counter := cfg.hangover_frames, onset_counter := s.onset_counter,
        in_speech := true }
      (accStep acc true (some x.1)) v rfl hacc'
    refine ⟨h.1, ?_, h.2.2.1, ?_, ?_⟩
    · rw [h.2.1]
      simp
    · rw [h.2.2.2.1]
      simp [accStep, hacc]
    · obtain ⟨ext, hext⟩ := h.2.2.2.2
      refine ⟨[x.1] ++ ext, ?_⟩
      rw [hext]
      simp [accStep, hacc]

theorem hangover_run (cfg : SmoothingConfig) (l : List (Frame × ℚ))
    (hl : ∀ x ∈ l, is_speech cfg.threshold x.2 = false) :
    ∀ s acc v, s.in_speech = true → acc.segment_start = some v →
    l.length ≤ s.hangover_counter →
    (runLoop cfg ⟨s, acc⟩ l).vad.in_speech = true ∧
    (runLoop cfg ⟨s, acc⟩ l).vad.hangover_counter = s.hangover_counter - l.length ∧
    (runLoop cfg ⟨s, acc⟩ l).acc.segment_start = some v ∧
    (runLoop cfg ⟨s, acc⟩ l).acc.vad_segments = acc.vad_segments ∧
    ∃ ext, (runLoop cfg ⟨s, acc⟩ l).acc.processed_audio = acc.processed_audio ++ ext := by
  induction l with
  | nil =>
    intro s acc v hs hacc _
    exact ⟨hs, by simp [runLoop_nil], by simp [runLoop_nil, hacc],
      by simp [runLoop_nil], ⟨[], by simp [runLoop_nil]⟩⟩
  | cons x l ih =>
    intro s acc v hs hacc hlen
    simp only [List.length_cons] at hlen
    have hpos : 0 < s.hangover_counter := by omega
    rw [runLoop_cons, runStep_hangover_tick cfg s acc x hs (hl x (by simp)) hpos]
    have hacc' : (accStep acc true (some x.1)).segment_start = some v := by
      simp [accStep, hacc]
    have h := ih (fun y hy => hl y (by simp [hy]))
      { frame_buffer := pushFrame cfg.prefill_frames s.frame_buffer x.1,
        hangover_counter := s.hangover_counter - 1, onset_counter := s.onset_counter,
        in_speech := true }
      (accStep acc true (some x.1)) v rfl hacc'
      (show l.length ≤ s.hangover_counter - 1 by omega)
    refine ⟨h.1, ?_, h.2.2.1, ?_, ?_⟩
    · rw [h.2.1]
      show s.hangover_counter - 1 - l.length = s.hangover_counter - (l.length + 1)
      omega
    · rw [h.2.2.2.1]
      simp [accStep, hacc]
    · obtain ⟨ext, hext⟩ := h.2.2.2.2
      refine ⟨[x.1] ++ ext, ?_⟩
      rw [hext]
      simp [accStep, hacc]

theorem tail_close_run (cfg : SmoothingConfig) (l : List (Frame × ℚ))
    (hl : ∀ x ∈ l, is_speech cfg.threshold x.2 = false) :
    ∀ s acc v, s.in_speech = true → acc.segment_start = some v →
    acc.processed_audio ≠ [] →
    (closeFinal (runLoop cfg ⟨s, acc⟩ l).acc).vad_segments =
      acc.vad_segments ++
        [{ start := v,
           stop := ((runLoop cfg ⟨s, acc⟩ l).acc.processed_audio.flatten.length : ℚ) /
             target_sr }] ∧
    (closeFinal (runLoop cfg ⟨s, acc⟩ l).acc).processed_audio =
      (runLoop cfg ⟨s, acc⟩ l).acc.processed_audio ∧
    ∃ ext, (runLoop cfg ⟨s, acc⟩ l).acc.processed_audio = acc.processed_audio ++ ext := by
  induction l with
  | nil =>
    intro s acc v hs hacc hne
    rw [runLoop_nil]
    constructor
    · simp [closeFinal, hacc, hne]
    · exact ⟨by simp [closeFinal, hacc, hne], ⟨[], by simp⟩⟩
  | cons x l ih =>
    intro s acc v hs hacc hne
    rcases Nat.eq_zero_or_pos s.hangover_counter with hh | hh
    · -- hangover exhausted: the segment closes now, the rest of the stream is idle
      rw [runLoop_cons, runStep_hangover_exhausted cfg s acc x hs (hl x (by simp)) hh]
      have hclose : accStep acc false none =
          { processed_audio := acc.processed_audio
            vad_segments := acc.vad_segments ++
              [{ start := v, stop := (acc.processed_audio.flatten.length : ℚ) / target_sr }]
            segment_start := none } := by
        simp [accStep, hacc]
      rw [hclose]
      have hidle := idle_unvoiced_run cfg l (fun y hy => hl y (by simp [hy]))
        { frame_buffer := pushFrame cfg.prefill_frames s.frame_buffer x.1,
          hangover_counter := s.hangover_counter, onset_counter := s.onset_counter,
          in_speech := false }
        { processed_audio := acc.processed_audio
          vad_segments := acc.vad_segments ++
            [{ start := v, stop := (acc.processed_audio.flatten.length : ℚ) / target_sr }]
          segment_start := none }
        rfl rfl
      rw [hidle.2.2]
      exact ⟨by simp [closeFinal], by simp [closeFinal], ⟨[], by simp⟩⟩
    · -- still within the hangover window: the frame is appended and the segment stays open
      rw [runLoop_cons, runStep_hangover_tick cfg s acc x hs (hl x (by simp)) hh]
      have hacc' : (accStep acc true (some x.1)).segment_start = some v := by
        simp [accStep, hacc]
      have hne' : (accStep acc true (some x.1)).processed_audio ≠ [] := by
        simp [accStep, hacc]
      have h := ih (fun y hy => hl y (by simp [hy]))
        { frame_buffer := pushFrame cfg.prefill_frames s.frame_buffer x.1,
          hangover_counter := s.hangover_counter - 1, onset_counter := s.onset_counter,
          in_speech := true }
        (accStep acc true (some x.1)) v rfl hacc' hne'
      refine ⟨?_, h.2.1, ?_⟩
      · rw [h.1]
        simp [accStep, hacc]
      · obtain ⟨ext, hext⟩ := h.2.2
        refine ⟨[x.1] ++ ext, ?_⟩
        rw [hext]
        simp [accStep, hacc]

/-! ### The emission trace -/

theorem emitTrace_nil (cfg : SmoothingConfig) (s : VadState) :
    emitTrace cfg s [] = [] := rfl

theorem emitTrace_shift (cfg : SmoothingConfig) (l : List (Frame × ℚ)) :
    ∀ s bs,
    (l.foldl
      (fun (p : VadState × List Bool) inp =>
        let r := process_frame cfg p.1 inp.1 inp.2
        (r.state, p.2 ++ [r.emit]))
      (s, bs)).2 = bs ++ emitTrace cfg s l := by
  induction l with
  | nil => intro s bs; simp [emitTrace]
  | cons x l ih =>
    intro s bs
    simp only [emitTrace, List.foldl_cons]
    rw [ih, ih]
    simp

theorem emitTrace_cons (cfg : SmoothingConfig) (s : VadState) (x : Frame × ℚ)
    (l : List (Frame × ℚ)) :
    emitTrace cfg s (x :: l) =
      (process_frame cfg s x.1 x.2).emit ::
        emitTrace cfg (process_frame cfg s x.1 x.2).state l := by
  simp only [emitTrace, List.foldl_cons]
  rw [emitTrace_shift]
  simp [emitTrace]

/-! ### Debounce: runs of voiced frames too short to confirm onset -/

/-- The length of the trailing run of voiced frames of a stream, seeded with
`c` (the run length carried in from earlier frames): a voiced frame adds one,
an unvoiced frame resets to zero — exactly how `onset_counter` evolves while
the machine stays out of speech. -/
def tvFrom (cfg : SmoothingConfig) (c : ℕ) (l : List (Frame × ℚ)) : ℕ :=
  l.foldl (fun n x => if is_speech cfg.threshold x.2 then n + 1 else 0) c

/-- The length of the trailing run of voiced frames of a stream. Every
maximal run of consecutive voiced frames of `l` is shorter than `k` exactly
when `trailingVoiced` of every prefix of `l` is. -/
def trailingVoiced (cfg : SmoothingConfig) (l : List (Frame × ℚ)) : ℕ :=
  tvFrom cfg 0 l

theorem noConfirm_run (cfg : SmoothingConfig) (l : List (Frame × ℚ)) :
    ∀ c s acc, s.in_speech = false → s.onset_counter = c → acc.segment_start = none →
    (∀ n, tvFrom cfg c (l.take n) < cfg.onset_frames) →
    (runLoop cfg ⟨s, acc⟩ l).vad.in_speech = false ∧
    (runLoop cfg ⟨s, acc⟩ l).acc = acc ∧
    emitTrace cfg s l = List.replicate l.length false := by
  induction l with
  | nil =>
    intro c s acc hs hc hacc _
    exact ⟨hs, rfl, rfl⟩
  | cons x l ih =>
    intro c s acc hs hc hacc H
    by_cases hx : is_speech cfg.threshold x.2 = true
    · have h1 : c + 1 < cfg.onset_frames := by
        have := H 1
        simpa [tvFrom, hx] using this
      have hlt : s.onset_counter + 1 < cfg.onset_frames := by omega
      have hstep := runStep_idle_voiced_noconfirm cfg s acc x hs hx hacc hlt
      have H' : ∀ n, tvFrom cfg (c + 1) (l.take n) < cfg.onset_frames := by
        intro n
        have := H (n + 1)
        simpa [tvFrom, hx, hc] using this
      have h := ih (c + 1)
        { frame_buffer := pushFrame cfg.prefill_frames s.frame_buffer x.1,
          hangover_counter := s.hangover_counter, onset_counter := s.onset_counter + 1,
          in_speech := false }
        acc rfl (by simp [hc]) hacc H'
      refine ⟨by rw [runLoop_cons, hstep]; exact h.1,
        by rw [runLoop_cons, hstep]; exact h.2.1, ?_⟩
      rw [emitTrace_cons]
      have hemit : (process_frame cfg s x.1 x.2).emit = false := by
        have := congrArg RunState.acc hstep
        have h2 : (process_frame cfg s x.1 x.2).state =
            { frame_buffer := pushFrame cfg.prefill_frames s.frame_buffer x.1,
              hangover_counter := s.hangover_counter,
              onset_counter := s.onset_counter + 1, in_speech := false } := by
          have := congrArg (fun r => r.vad) hstep
          simpa [runStep] using this
        simp [process_frame, hs, hx, Nat.not_le.mpr hlt]
      rw [hemit]
      have h2 : (process_frame cfg s x.1 x.2).state =
          { frame_buffer := pushFrame cfg.prefill_frames s.frame_buffer x.1,
            hangover_counter := s.hangover_counter,
            onset_counter := s.onset_counter + 1, in_speech := false } := by
        simp [process_frame, hs, hx, Nat.not_le.mpr hlt]
      rw [h2, h.2.2]
      simp [List.replicate_succ]
    · have hx' : is_speech cfg.threshold x.2 = false := by
        simpa using hx
      have hstep := runStep_idle_unvoiced cfg s acc x hs hx' hacc
      have H' : ∀ n, tvFrom cfg 0 (l.take n) < cfg.onset_frames := by
        intro n
        have := H (n + 1)
        simpa [tvFrom, hx'] using this
      have h := ih 0
        { frame_buffer := pushFrame cfg.prefill_frames s.frame_buffer x.1,
          hangover_counter := s.hangover_counter, onset_counter := 0,
          in_speech := false }
        acc rfl rfl hacc H'
      refine ⟨by rw [runLoop_cons, hstep]; exact h.1,
        by rw [runLoop_cons, hstep]; exact h.2.1, ?_⟩
      rw [emitTrace_cons]
      have hemit : (process_frame cfg s x.1 x.2).emit = false := by
        simp [process_frame, hs, hx']
      have h2 : (process_frame cfg s x.1 x.2).state =
          { frame_buffer := pushFrame cfg.prefill_frames s.frame_buffer x.1,
            hangover_counter := s.hangover_counter, onset_counter := 0,
            in_speech := false } := by
        simp [process_frame, hs, hx']
      rw [hemit, h2, h.2.2]
      simp [List.replicate_succ]

/-! ### The state invariant -/

/-- The invariant of §3 of the spec: counters within their configured bounds
and the ring buffer within its capacity. -/
def StateInv (cfg : SmoothingConfig) (s : VadState) : Prop :=
  s.onset_counter ≤ cfg.onset_frames ∧
  s.hangover_counter ≤ cfg.hangover_frames ∧
  s.frame_buffer.length ≤ cfg.prefill_frames + 1

theorem stateInv_step (cfg : SmoothingConfig) (s : VadState) (f : Frame) (p : ℚ)
    (h : StateInv cfg s) : StateInv cfg (process_frame cfg s f p).state := by
  obtain ⟨h1, h2, h3⟩ := h
  have hb := pushFrame_length_le cfg.prefill_frames s.frame_buffer f
  unfold StateInv process_frame
  cases hsp : s.in_speech <;> cases hv : is_speech cfg.threshold p <;> dsimp only
  · exact ⟨Nat.zero_le _, h2, hb⟩
  · split
    · exact ⟨Nat.zero_le _, le_refl _, hb⟩
    · rename_i hcond
      simp only [ge_iff_le, not_le] at hcond
      exact ⟨show s.onset_counter + 1 ≤ cfg.onset_frames by omega, h2, hb⟩
  · split
    · exact ⟨h1, show s.hangover_counter - 1 ≤ cfg.hangover_frames by omega, hb⟩
    · exact ⟨h1, h2, hb⟩
  · exact ⟨h1, le_refl _, hb⟩

theorem stateInv_runLoop (cfg : SmoothingConfig) (inputs : List (Frame × ℚ)) :
    ∀ s acc, StateInv cfg s → StateInv cfg (runLoop cfg ⟨s, acc⟩ inputs).vad := by
  induction inputs with
  | nil => intro s acc h; exact h
  | cons x l ih =>
    intro s acc h
    rw [runLoop_cons]
    exact ih (process_frame cfg s x.1 x.2).state _ (stateInv_step cfg s x.1 x.2 h)

/-! ### Claim theorems -/

/-- C9: a frame is classified as voiced exactly when its probability is
strictly greater than the threshold; a probability exactly equal to the
threshold is NOT voiced (`SileroVAD.is_speech` uses strict `>`). -/
theorem C9_strict_threshold (threshold p : ℚ) :
    (is_speech threshold p = true ↔ threshold < p) ∧
    is_speech threshold threshold = false := by
  constructor
  · simp [is_speech]
  · simp [is_speech]

/-- C3: from a non-speech state on a voiced frame, if the incremented onset
counter reaches `onset_frames` the machine confirms speech (`in_speech = true`,
`hangover_counter = hangover_frames`, `onset_counter = 0`) and emits the whole
ring buffer (at most `prefill_frames + 1` frames, the current frame last)
concatenated in arrival order; with fewer consecutive voiced frames it emits
nothing. -/
theorem C3_onset_confirmation (cfg : SmoothingConfig) (s : VadState) (f : Frame)
    (p : ℚ) (hs : s.in_speech = false) (hv : is_speech cfg.threshold p = true) :
    (cfg.onset_frames ≤ s.onset_counter + 1 →
      (process_frame cfg s f p).emit = true ∧
      (process_frame cfg s f p).payload =
        some (pushFrame cfg.prefill_frames s.frame_buffer f).flatten ∧
      (process_frame cfg s f p).state.in_speech = true ∧
      (process_frame cfg s f p).state.hangover_counter = cfg.hangover_frames ∧
      (process_frame cfg s f p).state.onset_counter = 0 ∧
      (process_frame cfg s f p).state.frame_buffer =
        pushFrame cfg.prefill_frames s.frame_buffer f ∧
      (pushFrame cfg.prefill_frames s.frame_buffer f).length ≤ cfg.prefill_frames + 1 ∧
      (pushFrame cfg.prefill_frames s.frame_buffer f).getLast? = some f) ∧
    (s.onset_counter + 1 < cfg.onset_frames →
      (process_frame cfg s f p).emit = false ∧
      (process_frame cfg s f p).payload = none) := by
  constructor
  · intro ho
    simp [process_frame, hs, hv, ho, pushFrame_length_le, pushFrame_getLast]
  · intro ho
    simp [process_frame, hs, hv, Nat.not_le.mpr ho]

/-- Witness for C3 at a concrete input: with `onset_frames = 1` a first voiced
frame from reset confirms speech immediately. -/
theorem C3_onset_confirmation_witness :
    (process_frame
      ({ threshold := 0, prefill_frames := 15, hangover_frames := 15,
         onset_frames := 1 } : SmoothingConfig) resetState [] 1).emit = true :=
  ((C3_onset_confirmation
      ({ threshold := 0, prefill_frames := 15, hangover_frames := 15,
         onset_frames := 1 } : SmoothingConfig)
      resetState [] 1 rfl (by decide)).1 (by decide)).1

/-- C6: after reset and after every `process_frame` call the state satisfies
`onset_counter ≤ onset_frames`, `hangover_counter ≤ hangover_frames`, the ring
buffer holds at most `prefill_frames + 1` frames; `in_speech` turns true only
on a voiced frame whose incremented onset counter reaches `onset_frames`, and
turns false only on an unvoiced frame with the hangover counter exhausted. -/
theorem C6_state_invariant (cfg : SmoothingConfig) :
    StateInv cfg resetState ∧
    (∀ s f p, StateInv cfg s → StateInv cfg (process_frame cfg s f p).state) ∧
    (∀ inputs, StateInv cfg (runLoop cfg runInit inputs).vad) ∧
    (∀ s f p, (process_frame cfg s f p).state.in_speech = true →
        s.in_speech = false →
        is_speech cfg.threshold p = true ∧ cfg.onset_frames ≤ s.onset_counter + 1) ∧
    (∀ s f p, (process_frame cfg s f p).state.in_speech = false →
        s.in_speech = true →
        is_speech cfg.threshold p = false ∧ s.hangover_counter = 0) := by
  refine ⟨⟨Nat.zero_le _, Nat.zero_le _, by simp [resetState]⟩,
    fun s f p h => stateInv_step cfg s f p h,
    fun inputs => stateInv_runLoop cfg inputs resetState accInit
      ⟨Nat.zero_le _, Nat.zero_le _, by simp [resetState]⟩,
    ?_, ?_⟩
  · intro s f p hpost hpre
    unfold process_frame at hpost
    rw [hpre] at hpost
    cases hv : is_speech cfg.threshold p <;> rw [hv] at hpost
    · simp at hpost
    · refine ⟨rfl, ?_⟩
      by_contra hlt
      dsimp only at hpost
      rw [if_neg (by omega : ¬ s.onset_counter + 1 ≥ cfg.onset_frames)] at hpost
      simp at hpost
  · intro s f p hpost hpre
    unfold process_frame at hpost
    rw [hpre] at hpost
    cases hv : is_speech cfg.threshold p <;> rw [hv] at hpost
    · refine ⟨rfl, ?_⟩
      by_contra hne
      dsimp only at hpost
      rw [if_pos (by omega : s.hangover_counter > 0)] at hpost
      simp at hpost
    · simp at hpost

/-- C4: on any stream in which every maximal run of consecutive voiced frames
is shorter than `onset_frames` (every prefix's trailing voiced-run length stays
below `onset_frames`), `process_frame` never returns `is_speech = true` and the
full run produces zero segments and no output chunks. -/
theorem C4_debounce (cfg : SmoothingConfig) (inputs : List (Frame × ℚ))
    (h : ∀ n, trailingVoiced cfg (inputs.take n) < cfg.onset_frames) :
    emitTrace cfg resetState inputs = List.replicate inputs.length false ∧
    (runVAD cfg inputs).vad_segments = [] ∧
    (runVAD cfg inputs).processed_audio = [] := by
  have hrun := noConfirm_run cfg inputs 0 resetState accInit rfl rfl rfl
    (fun n => h n)
  refine ⟨hrun.2.2, ?_, ?_⟩
  · show (closeFinal (runLoop cfg runInit inputs).acc).vad_segments = []
    rw [show runInit = RunState.mk resetState accInit from rfl, hrun.2.1]
    rfl
  · show (closeFinal (runLoop cfg runInit inputs).acc).processed_audio = []
    rw [show runInit = RunState.mk resetState accInit from rfl, hrun.2.1]
    rfl

/-- Concrete configuration used by several witnesses: the defaults of
`HandyPreprocessor.process` with threshold 0 so that probabilities 0 and 1
decide voicedness. -/
def cfgW : SmoothingConfig :=
  { threshold := 0, prefill_frames := 15, hangover_frames := 15, onset_frames := 2 }

/-- Witness for C4: a single isolated voiced frame (probability 1 against
threshold 0) with `onset_frames = 2` emits nothing and yields no segment. -/
theorem C4_debounce_witness :
    emitTrace cfgW resetState [([], 1), ([], 0)] = List.replicate 2 false ∧
    (runVAD cfgW [([], 1), ([], 0)]).vad_segments = [] ∧
    (runVAD cfgW [([], 1), ([], 0)]).processed_audio = [] :=
  C4_debounce _ _ (fun n => by
    match n with
    | 0 => decide
    | 1 => decide
    | (m + 2) =>
      rw [List.take_of_length_le (by simp)]
      decide)

/-- C7: a clip whose classifier probabilities never exceed the threshold
produces zero segments and an empty filtered buffer, and the fallback of
`HandyPreprocessor.process` then passes the original un-gated audio through. -/
theorem C7_silent_fallback (cfg : SmoothingConfig) (detect : Frame → ℚ)
    (audio : List ℚ) (h : ∀ f, detect f ≤ cfg.threshold) :
    (runVAD cfg ((frameSplit audio).map (fun f => (f, detect f)))).vad_segments = [] ∧
    (runVAD cfg ((frameSplit audio).map (fun f => (f, detect f)))).processed_audio = [] ∧
    gatedAudio audio (runVAD cfg ((frameSplit audio).map (fun f => (f, detect f)))) =
      audio ∧
    (process cfg detect audio).vad_segments = [] := by
  have hl : ∀ x ∈ (frameSplit audio).map (fun f => (f, detect f)),
      is_speech cfg.threshold x.2 = false := by
    intro x hx
    obtain ⟨f, _, rfl⟩ := List.mem_map.mp hx
    simp only [is_speech, gt_iff_lt, decide_eq_false_iff_not, not_lt]
    exact h f
  have hrun := idle_unvoiced_run cfg _ hl resetState accInit rfl rfl
  have hacc : (runVAD cfg ((frameSplit audio).map (fun f => (f, detect f)))) = accInit := by
    show closeFinal (runLoop cfg runInit _).acc = accInit
    rw [show runInit = RunState.mk resetState accInit from rfl, hrun.2.2]
    rfl
  refine ⟨by rw [hacc]; rfl, by rw [hacc]; rfl, by rw [hacc]; rfl, ?_⟩
  show (runVAD cfg ((frameSplit audio).map (fun f => (f, detect f)))).vad_segments = []
  rw [hacc]
  rfl

/-- Witness for C7: the zero classifier on the empty clip. -/
theorem C7_silent_fallback_witness :
    (runVAD cfgW ((frameSplit []).map (fun f => (f, (fun _ => (0 : ℚ)) f)))).vad_segments =
      [] ∧
    (runVAD cfgW
      ((frameSplit []).map (fun f => (f, (fun _ => (0 : ℚ)) f)))).processed_audio = [] ∧
    gatedAudio []
      (runVAD cfgW ((frameSplit []).map (fun f => (f, (fun _ => (0 : ℚ)) f)))) = [] ∧
    (process cfgW (fun _ => (0 : ℚ)) []).vad_segments = [] :=
  C7_silent_fallback _ _ [] (fun _ => le_refl 0)

/-- C10: when the gated (or fallback) audio is shorter than 16000 samples
(one second), `HandyPreprocessor.process` zero-pads it to exactly 20000
samples (1.25 s), reports `processed_duration` of exactly 1.25 s, and leaves
the already-recorded segment times untouched. -/
theorem C10_padding (cfg : SmoothingConfig) (detect : Frame → ℚ) (audio : List ℚ)
    (h : (gatedAudio audio
        (runVAD cfg ((frameSplit audio).map (fun f => (f, detect f))))).length < 16000) :
    (process cfg detect audio).audio.length = 20000 ∧
    (process cfg detect audio).processed_duration = 5 / 4 ∧
    (process cfg detect audio).vad_segments =
      (runVAD cfg ((frameSplit audio).map (fun f => (f, detect f)))).vad_segments := by
  have hlen : (process cfg detect audio).audio.length = 20000 := by
    show (padAudio (gatedAudio audio
      (runVAD cfg ((frameSplit audio).map (fun f => (f, detect f)))))).length = 20000
    rw [padAudio, if_pos h]
    simp only [List.length_append, List.length_replicate]
    omega
  refine ⟨hlen, ?_, rfl⟩
  show ((process cfg detect audio).audio.length : ℚ) / target_sr = 5 / 4
  rw [hlen]
  norm_num [target_sr]

/-- Witness for C10: the empty clip (empty stream, fallback audio `[]`,
0 < 16000 samples) is padded to 20000 samples and 1.25 s. -/
theorem C10_padding_witness :
    (process cfgW (fun _ => (0 : ℚ)) []).audio.length = 20000 ∧
    (process cfgW (fun _ => (0 : ℚ)) []).processed_duration = 5 / 4 ∧
    (process cfgW (fun _ => (0 : ℚ)) []).vad_segments =
      (runVAD cfgW
        ((frameSplit []).map (fun f => (f, (fun _ => (0 : ℚ)) f)))).vad_segments :=
  C10_padding _ _ []
    (by
      rw [show frameSplit [] = [] by rw [frameSplit]; simp]
      simp [runVAD, runLoop, runInit, accInit, closeFinal, gatedAudio])

/-- C5: two voiced runs `v1, v2` (each at least `onset_frames` long), separated
by strictly fewer than `hangover_frames` unvoiced frames, with arbitrary
unvoiced lead-in and tail, are reported as exactly one segment — starting at 0
and covering the whole output buffer — not two. -/
theorem C5_hangover_merge (cfg : SmoothingConfig)
    (u1 v1 u2 v2 u3 : List (Frame × ℚ))
    (hu1 : ∀ x ∈ u1, is_speech cfg.threshold x.2 = false)
    (hv1 : ∀ x ∈ v1, is_speech cfg.threshold x.2 = true)
    (hu2 : ∀ x ∈ u2, is_speech cfg.threshold x.2 = false)
    (hv2 : ∀ x ∈ v2, is_speech cfg.threshold x.2 = true)
    (hu3 : ∀ x ∈ u3, is_speech cfg.threshold x.2 = false)
    (h1len : 1 ≤ v1.length) (h1on : cfg.onset_frames ≤ v1.length)
    (h2len : 1 ≤ v2.length) (h2on : cfg.onset_frames ≤ v2.length)
    (hgap : u2.length < cfg.hangover_frames) :
    (runVAD cfg (u1 ++ v1 ++ u2 ++ v2 ++ u3)).vad_segments =
      [{ start := 0,
         stop := (((runVAD cfg (u1 ++ v1 ++ u2 ++ v2 ++ u3)).processed_audio.flatten.length : ℚ) /
           target_sr) }] := by
  -- the confirmation frame is the k-th of v1, k = max onset_frames 1
  have hkle : max cfg.onset_frames 1 ≤ v1.length := max_le h1on h1len
  obtain ⟨c, v1b, hsplit⟩ :
      ∃ c v1b, v1.drop (max cfg.onset_frames 1 - 1) = c :: v1b := by
    cases hd : v1.drop (max cfg.onset_frames 1 - 1) with
    | nil =>
      exfalso
      have := List.drop_eq_nil_iff.mp hd
      omega
    | cons c t => exact ⟨c, t, rfl⟩
  have hv1eq : v1 = v1.take (max cfg.onset_frames 1 - 1) ++ (c :: v1b) := by
    rw [← hsplit, List.take_append_drop]
  have htklen : (v1.take (max cfg.onset_frames 1 - 1)).length =
      max cfg.onset_frames 1 - 1 := by
    rw [List.length_take]
    omega
  have hcv : is_speech cfg.threshold c.2 = true := by
    refine hv1 c ?_
    rw [hv1eq]
    simp
  have hv1bv : ∀ x ∈ v1b, is_speech cfg.threshold x.2 = true := by
    intro x hx
    refine hv1 x ?_
    rw [hv1eq]
    simp [hx]
  have hv1tk : ∀ x ∈ v1.take (max cfg.onset_frames 1 - 1),
      is_speech cfg.threshold x.2 = true :=
    fun x hx => hv1 x (List.take_subset _ _ hx)
  -- phase 1: the unvoiced lead-in leaves a fresh machine and accumulator
  have F1 := idle_unvoiced_run cfg u1 hu1 resetState accInit rfl rfl
  have honset1 : (runLoop cfg ⟨resetState, accInit⟩ u1).vad.onset_counter = 0 := by
    rw [F1.2.1]
    split <;> rfl
  -- phase 2: the first onset_frames - 1 voiced frames climb the onset counter
  have F2 := onset_climb_run cfg (v1.take (max cfg.onset_frames 1 - 1)) hv1tk
    (runLoop cfg ⟨resetState, accInit⟩ u1).vad
    (runLoop cfg ⟨resetState, accInit⟩ u1).acc
    F1.1 (by rw [F1.2.2]; rfl)
    (by
      rcases Nat.eq_zero_or_pos cfg.onset_frames with ho | ho
      · right
        have : max cfg.onset_frames 1 - 1 = 0 := by omega
        rw [this, List.take_zero]
      · left
        rw [honset1, htklen]
        omega)
  rw [show (⟨(runLoop cfg ⟨resetState, accInit⟩ u1).vad,
        (runLoop cfg ⟨resetState, accInit⟩ u1).acc⟩ : RunState) =
      runLoop cfg ⟨resetState, accInit⟩ u1 from rfl] at F2
  rw [honset1, htklen, F1.2.2] at F2
  -- phase 3: frame c confirms speech and flushes the ring buffer
  have hconf : cfg.onset_frames ≤
      (runLoop cfg (runLoop cfg ⟨resetState, accInit⟩ u1)
        (v1.take (max cfg.onset_frames 1 - 1))).vad.onset_counter + 1 := by
    rw [F2.2.1]
    omega
  have F3 := runStep_confirm cfg
    (runLoop cfg (runLoop cfg ⟨resetState, accInit⟩ u1)
      (v1.take (max cfg.onset_frames 1 - 1))).vad
    (runLoop cfg (runLoop cfg ⟨resetState, accInit⟩ u1)
      (v1.take (max cfg.onset_frames 1 - 1))).acc
    c F2.1 hcv hconf
  rw [show (⟨(runLoop cfg (runLoop cfg ⟨resetState, accInit⟩ u1)
        (v1.take (max cfg.onset_frames 1 - 1))).vad,
      (runLoop cfg (runLoop cfg ⟨resetState, accInit⟩ u1)
        (v1.take (max cfg.onset_frames 1 - 1))).acc⟩ : RunState) =
      runLoop cfg (runLoop cfg ⟨resetState, accInit⟩ u1)
        (v1.take (max cfg.onset_frames 1 - 1)) from rfl] at F3
  rw [F2.2.2] at F3
  have haccConf : accStep accInit true
      (some (pushFrame cfg.prefill_frames
        (runLoop cfg (runLoop cfg ⟨resetState, accInit⟩ u1)
          (v1.take (max cfg.onset_frames 1 - 1))).vad.frame_buffer c.1).flatten) =
      { processed_audio := [(pushFrame cfg.prefill_frames
          (runLoop cfg (runLoop cfg ⟨resetState, accInit⟩ u1)
            (v1.take (max cfg.onset_frames 1 - 1))).vad.frame_buffer c.1).flatten]
        vad_segments := []
        segment_start := some 0 } := by
    simp [accStep, accInit]
  rw [haccConf] at F3
  -- phase 4: the rest of the first voiced run keeps speech open
  have F4 := speech_voiced_run cfg v1b hv1bv
    (runStep cfg (runLoop cfg (runLoop cfg ⟨resetState, accInit⟩ u1)
      (v1.take (max cfg.onset_frames 1 - 1))) c).vad
    (runStep cfg (runLoop cfg (runLoop cfg ⟨resetState, accInit⟩ u1)
      (v1.take (max cfg.onset_frames 1 - 1))) c).acc
    0 (by rw [F3]) (by rw [F3])
  rw [show (⟨(runStep cfg (runLoop cfg (runLoop cfg ⟨resetState, accInit⟩ u1)
        (v1.take (max cfg.onset_frames 1 - 1))) c).vad,
      (runStep cfg (runLoop cfg (runLoop cfg ⟨resetState, accInit⟩ u1)
        (v1.take (max cfg.onset_frames 1 - 1))) c).acc⟩ : RunState) =
      runStep cfg (runLoop cfg (runLoop cfg ⟨resetState, accInit⟩ u1)
        (v1.take (max cfg.onset_frames 1 - 1))) c from rfl] at F4
  have hhang4 : (runLoop cfg (runStep cfg (runLoop cfg
      (runLoop cfg ⟨resetState, accInit⟩ u1)
      (v1.take (max cfg.onset_frames 1 - 1))) c) v1b).vad.hangover_counter =
      cfg.hangover_frames := by
    rw [F4.2.1, F3]
    split <;> rfl
  have hproc4 : (runLoop cfg (runStep cfg (runLoop cfg
      (runLoop cfg ⟨resetState, accInit⟩ u1)
      (v1.take (max cfg.onset_frames 1 - 1))) c) v1b).acc.processed_audio ≠ [] := by
    obtain ⟨ext, hext⟩ := F4.2.2.2.2
    rw [hext, F3]
    simp
  -- phase 5: the short unvoiced gap stays within the hangover window
  have F5 := hangover_run cfg u2 hu2
    (runLoop cfg (runStep cfg (runLoop cfg (runLoop cfg ⟨resetState, accInit⟩ u1)
      (v1.take (max cfg.onset_frames 1 - 1))) c) v1b).vad
    (runLoop cfg (runStep cfg (runLoop cfg (runLoop cfg ⟨resetState, accInit⟩ u1)
      (v1.take (max cfg.onset_frames 1 - 1))) c) v1b).acc
    0 F4.1 F4.2.2.1 (by rw [hhang4]; omega)
  rw [show (⟨(runLoop cfg (runStep cfg (runLoop cfg
        (runLoop cfg ⟨resetState, accInit⟩ u1)
        (v1.take (max cfg.onset_frames 1 - 1))) c) v1b).vad,
      (runLoop cfg (runStep cfg (runLoop cfg (runLoop cfg ⟨resetState, accInit⟩ u1)
        (v1.take (max cfg.onset_frames 1 - 1))) c) v1b).acc⟩ : RunState) =
      runLoop cfg (runStep cfg (runLoop cfg (runLoop cfg ⟨resetState, accInit⟩ u1)
        (v1.take (max cfg.onset_frames 1 - 1))) c) v1b from rfl] at F5
  -- phase 6: the second voiced run keeps the same segment open
  have F6 := speech_voiced_run cfg v2 hv2
    (runLoop cfg (runLoop cfg (runStep cfg (runLoop cfg
      (runLoop cfg ⟨resetState, accInit⟩ u1)
      (v1.take (max cfg.onset_frames 1 - 1))) c) v1b) u2).vad
    (runLoop cfg (runLoop cfg (runStep cfg (runLoop cfg
      (runLoop cfg ⟨resetState, accInit⟩ u1)
      (v1.take (max cfg.onset_frames 1 - 1))) c) v1b) u2).acc
    0 F5.1 F5.2.2.1
  rw [show (⟨(runLoop cfg (runLoop cfg (runStep cfg (runLoop cfg
        (runLoop cfg ⟨resetState, accInit⟩ u1)
        (v1.take (max cfg.onset_frames 1 - 1))) c) v1b) u2).vad,
      (runLoop cfg (runLoop cfg (runStep cfg (runLoop cfg
        (runLoop cfg ⟨resetState, accInit⟩ u1)
        (v1.take (max cfg.onset_frames 1 - 1))) c) v1b) u2).acc⟩ : RunState) =
      runLoop cfg (runLoop cfg (runStep cfg (runLoop cfg
        (runLoop cfg ⟨resetState, accInit⟩ u1)
        (v1.take (max cfg.onset_frames 1 - 1))) c) v1b) u2 from rfl] at F6
  have hproc6 : (runLoop cfg (runLoop cfg (runLoop cfg (runStep cfg (runLoop cfg
      (runLoop cfg ⟨resetState, accInit⟩ u1)
      (v1.take (max cfg.onset_frames 1 - 1))) c) v1b) u2) v2).acc.processed_audio ≠
      [] := by
    obtain ⟨e2, he2⟩ := F5.2.2.2.2
    obtain ⟨e3, he3⟩ := F6.2.2.2.2
    rw [he3, he2]
    intro hns
    exact hproc4 (List.append_eq_nil.mp (List.append_eq_nil.mp hns).1).1
  -- phase 7: the unvoiced tail closes the single segment (in the loop or at end)
  have F7 := tail_close_run cfg u3 hu3
    (runLoop cfg (runLoop cfg (runLoop cfg (runStep cfg (runLoop cfg
      (runLoop cfg ⟨resetState, accInit⟩ u1)
      (v1.take (max cfg.onset_frames 1 - 1))) c) v1b) u2) v2).vad
    (runLoop cfg (runLoop cfg (runLoop cfg (runStep cfg (runLoop cfg
      (runLoop cfg ⟨resetState, accInit⟩ u1)
      (v1.take (max cfg.onset_frames 1 - 1))) c) v1b) u2) v2).acc
    0 F6.1 F6.2.2.1 hproc6
  rw [show (⟨(runLoop cfg (runLoop cfg (runLoop cfg (runStep cfg (runLoop cfg
        (runLoop cfg ⟨resetState, accInit⟩ u1)
        (v1.take (max cfg.onset_frames 1 - 1))) c) v1b) u2) v2).vad,
      (runLoop cfg (runLoop cfg (runLoop cfg (runStep cfg (runLoop cfg
        (runLoop cfg ⟨resetState, accInit⟩ u1)
        (v1.take (max cfg.onset_frames 1 - 1))) c) v1b) u2) v2).acc⟩ : RunState) =
      runLoop cfg (runLoop cfg (runLoop cfg (runStep cfg (runLoop cfg
        (runLoop cfg ⟨resetState, accInit⟩ u1)
        (v1.take (max cfg.onset_frames 1 - 1))) c) v1b) u2) v2 from rfl] at F7
  -- assemble: the whole loop is the composition of the seven phases
  have hv1run : ∀ rs : RunState, runLoop cfg rs v1 =
      runLoop cfg (runStep cfg (runLoop cfg rs
        (v1.take (max cfg.onset_frames 1 - 1))) c) v1b := by
    intro rs
    conv_lhs => rw [hv1eq]
    rw [runLoop_append, runLoop_cons]
  have hdec : runLoop cfg runInit (u1 ++ v1 ++ u2 ++ v2 ++ u3) =
      runLoop cfg (runLoop cfg (runLoop cfg (runLoop cfg (runStep cfg (runLoop cfg
        (runLoop cfg ⟨resetState, accInit⟩ u1)
        (v1.take (max cfg.onset_frames 1 - 1))) c) v1b) u2) v2) u3 := by
    rw [show runInit = (⟨resetState, accInit⟩ : RunState) from rfl]
    rw [runLoop_append, runLoop_append, runLoop_append, runLoop_append, hv1run]
  unfold runVAD
  rw [hdec]
  rw [F7.1, F7.2.1, F6.2.2.2.1, F5.2.2.2.1, F4.2.2.2.1, F3]
  rfl

/-- Voiced phase for the C5 witness: two voiced frames (probability 1). -/
def v1W : List (Frame × ℚ) := [([], 1), ([], 1)]

/-- Gap phase for the C5 witness: one unvoiced frame (probability 0). -/
def u2W : List (Frame × ℚ) := [([], 0)]

/-- Witness for C5: two 2-frame voiced runs separated by a single unvoiced
frame (gap 1 < hangover 15) report exactly one segment. -/
theorem C5_hangover_merge_witness :
    (runVAD cfgW ([] ++ v1W ++ u2W ++ v1W ++ [])).vad_segments =
      [{ start := 0,
         stop := (((runVAD cfgW ([] ++ v1W ++ u2W ++ v1W ++ [])).processed_audio.flatten.length : ℚ) /
           target_sr) }] :=
  C5_hangover_merge cfgW [] v1W u2W v1W [] (by decide) (by decide) (by decide)
    (by decide) (by decide) (by decide) (by decide) (by decide) (by decide) (by decide)

/-! ### The segment-start accounting of `HandyPreprocessor.process` -/

/-- A real 480-sample frame (all-zero samples; only its length matters). -/
def frameB : Frame := List.replicate 480 0

/-- A legal configuration (threshold 0, no pre-roll, no hangover, immediate
onset) under which the segment-start bookkeeping is easy to trace. -/
def cfgB : SmoothingConfig :=
  { threshold := 0, prefill_frames := 0, hangover_frames := 0, onset_frames := 1 }

/-- Probability stream voiced-unvoiced-voiced-unvoiced: two one-frame speech
segments. -/
def streamB : List (Frame × ℚ) :=
  [(frameB, 1), (frameB, 0), (frameB, 1), (frameB, 0)]

/-- Probability stream with a second, two-frame voiced run. -/
def streamB2 : List (Frame × ℚ) :=
  [(frameB, 1), (frameB, 0), (frameB, 1), (frameB, 1), (frameB, 0)]

/-- C1 (code bug, `handy_preprocessing.py` line 198): when the second segment
opens, 480 samples have already been appended to the output buffer, so the
spec's `outputCursor / sampleRate` start time is `480 / 16000` s; the code
instead stores `len(processed_audio) / target_sr` where `processed_audio` is
the list of appended chunks, giving `1 / 16000` s — a different value. -/
theorem C1_segment_start_uses_chunk_count :
    (runVAD cfgB streamB).vad_segments =
      [{ start := 0, stop := 480 / 16000 },
       { start := 1 / 16000, stop := 960 / 16000 }] ∧
    (1 : ℚ) / 16000 ≠ 480 / 16000 := by
  constructor
  · have hlen : frameB.length = 480 := by
      simp only [frameB, List.length_replicate]
    show (closeFinal (runLoop cfgB runInit streamB).acc).vad_segments = _
    simp [streamB, runLoop, runStep, runInit, resetState, accInit, process_frame,
      accStep, closeFinal, pushFrame, is_speech, cfgB, target_sr, hlen]
  · norm_num

/-- C2 (code bug, same line): because a later segment's `start` is computed
from the chunk count while the previous segment's `end` is computed from the
sample count, the reported segments are NOT non-overlapping: here two voiced
runs separated by one unvoiced frame (`hangover_frames = 0`, so a split is
mandated) give `end₁ = 480/16000 > start₂ = 1/16000`. -/
theorem C2_segments_overlap :
    (runVAD cfgB streamB2).vad_segments =
      [{ start := 0, stop := 480 / 16000 },
       { start := 1 / 16000, stop := 1440 / 16000 }] ∧
    ¬ ((480 : ℚ) / 16000 ≤ 1 / 16000) := by
  constructor
  · have hlen : frameB.length = 480 := by
      simp only [frameB, List.length_replicate]
    show (closeFinal (runLoop cfgB runInit streamB2).acc).vad_segments = _
    simp [streamB2, runLoop, runStep, runInit, resetState, accInit, process_frame,
      accStep, closeFinal, pushFrame, is_speech, cfgB, target_sr, hlen]
  · norm_num

/-! ### The spectrum summarizer (`HandyPreprocessor._generate_spectrum`)

The STFT and the amplitude-to-dB conversion (lines 257-264) are library calls
(`librosa.stft`, `librosa.amplitude_to_db`, `librosa.fft_frequencies`); the
embedded core is the bucket loop (lines 267-287), taken over an arbitrary dB
spectrogram `Sdb` (one row per frequency bin, over time) and the list of bin
center frequencies.  Values are real numbers (the code computes in floating
point). -/

noncomputable section
open scoped Classical

/-- `np.clip(x, lo, hi)`. -/
def clip (x lo hi : ℝ) : ℝ := max lo (min x hi)

/-- `np.mean` of a list of values: sum divided by count. -/
def listMean (l : List ℝ) : ℝ := l.sum / l.length

/-- Band edge used by the code:
`freq_start = 80 + (4000 - 80) * (i / num_buckets) ** 2` (line 270-273). -/
def freqEdge (nb i : ℕ) : ℝ := 80 + (4000 - 80) * ((i : ℝ) / (nb : ℝ)) ^ 2

/-- The mask `(freqs >= freq_start) & (freqs < freq_end)` for band `i`. -/
def inBand (nb i : ℕ) (x : ℝ) : Bool :=
  decide (freqEdge nb i ≤ x ∧ x < freqEdge nb (i + 1))

/-- The dB entries `S_db[mask, :]` of band `i`: the rows whose bin frequency
falls inside the band, flattened over all time frames. -/
def bandEntries (Sdb : List (List ℝ)) (freqs : List ℝ) (nb i : ℕ) : List ℝ :=
  (((freqs.zip Sdb).filter (fun q => inBand nb i q.1)).map Prod.snd).flatten

/-- Body of the bucket loop for one band `i` (lines 277-287): if no frequency
bin falls in the band (`np.any(mask)` false) the bucket is `0.0`; otherwise
average the selected dB values, normalize `(x - (-55)) / ((-8) - (-55))`,
clip to `[0, 1]`, apply the display curve `(normalized * 1.3) ** 0.7` and clip
again. -/
def bucketValue (Sdb : List (List ℝ)) (freqs : List ℝ) (nb i : ℕ) : ℝ :=
  if freqs.filter (fun x => inBand nb i x) = [] then 0
  else
    let bucket_db := listMean (bandEntries Sdb freqs nb i)
    let normalized := (bucket_db - (-55)) / ((-8) - (-55))
    let clipped := clip normalized 0 1
    let final_value := (clipped * 1.3) ^ (0.7 : ℝ)
    clip final_value 0 1

/-- `_generate_spectrum`'s bucket list: one `bucketValue` per band. -/
def generate_spectrum (Sdb : List (List ℝ)) (freqs : List ℝ) (nb : ℕ) : List ℝ :=
  (List.range nb).map (bucketValue Sdb freqs nb)

/-- The spec's band edge formula, as worded: `bandEdge(i) = 80 + 3920 *
(i/numBuckets)^2`. -/
def spec_bandEdge (nb i : ℕ) : ℝ := 80 + 3920 * ((i : ℝ) / (nb : ℝ)) ^ 2

/-- Band membership per the spec's edges. -/
def spec_inBand (nb i : ℕ) (x : ℝ) : Bool :=
  decide (spec_bandEdge nb i ≤ x ∧ x < spec_bandEdge nb (i + 1))

/-- The band's dB entries per the spec's edges. -/
def spec_bandEntries (Sdb : List (List ℝ)) (freqs : List ℝ) (nb i : ℕ) : List ℝ :=
  (((freqs.zip Sdb).filter (fun q => spec_inBand nb i q.1)).map Prod.snd).flatten

/-- The spec's bucket formula, as worded: average the band's dB values, map
linearly from `[-55, -8]` to `[0, 1]` (`(x + 55) / 47`) with clamping, then
`clamp((normalized * 1.3)^0.7, 0, 1)`; an empty band is `0.0`. -/
def spec_bucketValue (Sdb : List (List ℝ)) (freqs : List ℝ) (nb i : ℕ) : ℝ :=
  if freqs.filter (fun x => spec_inBand nb i x) = [] then 0
  else
    clip ((clip ((listMean (spec_bandEntries Sdb freqs nb i) + 55) / 47) 0 1 * 1.3) ^
      (0.7 : ℝ)) 0 1

/-- The spectrum per the spec's wording. -/
def spec_spectrum (Sdb : List (List ℝ)) (freqs : List ℝ) (nb : ℕ) : List ℝ :=
  (List.range nb).map (spec_bucketValue Sdb freqs nb)

theorem clip_mem_unit (x : ℝ) : 0 ≤ clip x 0 1 ∧ clip x 0 1 ≤ 1 := by
  unfold clip
  exact ⟨le_max_left 0 _, max_le (by norm_num) (min_le_right x 1)⟩

theorem freqEdge_eq_spec (nb j : ℕ) : freqEdge nb j = spec_bandEdge nb j := by
  unfold freqEdge spec_bandEdge
  norm_num

theorem bucketValue_eq_spec (Sdb : List (List ℝ)) (freqs : List ℝ) (nb i : ℕ) :
    bucketValue Sdb freqs nb i = spec_bucketValue Sdb freqs nb i := by
  have hb : (fun x : ℝ => inBand nb i x) = (fun x : ℝ => spec_inBand nb i x) := by
    funext x
    unfold inBand spec_inBand
    rw [freqEdge_eq_spec, freqEdge_eq_spec]
  have hq : (fun q : ℝ × List ℝ => inBand nb i q.1) =
      (fun q : ℝ × List ℝ => spec_inBand nb i q.1) := by
    funext q
    unfold inBand spec_inBand
    rw [freqEdge_eq_spec, freqEdge_eq_spec]
  unfold bucketValue spec_bucketValue bandEntries spec_bandEntries
  rw [hb, hq]
  split
  · rfl
  · have harith :
        (listMean ((((freqs.zip Sdb).filter
            (fun q => spec_inBand nb i q.1)).map Prod.snd).flatten) - (-55)) /
            ((-8) - (-55)) =
        (listMean ((((freqs.zip Sdb).filter
            (fun q => spec_inBand nb i q.1)).map Prod.snd).flatten) + 55) / 47 := by
      norm_num
    show clip ((clip ((listMean ((((freqs.zip Sdb).filter
        (fun q => spec_inBand nb i q.1)).map Prod.snd).flatten) - (-55)) /
          ((-8) - (-55))) 0 1 * 1.3) ^ (0.7 : ℝ)) 0 1 = _
    rw [harith]

/-- C8: every bucket of the summarizer lies in `[0, 1]`; a band containing no
spectrogram bin yields exactly `0.0`; and the computed buckets coincide with
the spec's formula (average dB, linear `[-55, -8] → [0, 1]` map with clamping,
display curve `clamp((n * 1.3)^0.7, 0, 1)`, band edges
`80 + 3920 * (i/numBuckets)^2`). -/
theorem C8_spectrum_bounds (Sdb : List (List ℝ)) (freqs : List ℝ) (nb : ℕ) :
    (∀ v ∈ generate_spectrum Sdb freqs nb, 0 ≤ v ∧ v ≤ 1) ∧
    (∀ i, freqs.filter (fun x => inBand nb i x) = [] →
      bucketValue Sdb freqs nb i = 0) ∧
    generate_spectrum Sdb freqs nb = spec_spectrum Sdb freqs nb := by
  refine ⟨?_, ?_, ?_⟩
  · intro v hv
    obtain ⟨i, _, rfl⟩ := List.mem_map.mp hv
    unfold bucketValue
    split
    · norm_num
    · exact clip_mem_unit _
  · intro i hemp
    unfold bucketValue
    rw [if_pos hemp]
  · unfold generate_spectrum spec_spectrum
    congr 1
    funext i
    exact bucketValue_eq_spec Sdb freqs nb i

end

end Handy
